import Mathlib

/-!
Verification development for the Finansle valuation and time-series
reconciliation engine (scripts/update_data.py).  The Python functions are
shallowly embedded over rational numbers: floating point values become
exact rationals, absent values become Option, the process-wide
data-quality issue accumulator becomes an explicit issue list returned by
each extraction function (in append order), and code paths that raise in
the source return Except errors.
-/

namespace Finansle

attribute [local semireducible] Rat.add Rat.mul Rat.inv Rat.sub Rat.ofScientific

set_option maxRecDepth 100000

/-- Values found in the per-ticker info mapping of the provider: absent (the
None of the source), finite numbers (ints and floats modelled as rationals),
IEEE infinities, and strings.  NaN does not occur in the fields exercised
here. -/
inductive YVal where
  | vnone : YVal
  | vnum : ℚ → YVal
  | vinf : YVal
  | vninf : YVal
  | vstr : String → YVal
  deriving DecidableEq

/-- The info mapping; dict.get yields None (here vnone) for absent keys. -/
def Info : Type := String → YVal

/-- Digit-string value, most significant first. -/
def digitsToNat (cs : List Char) : ℕ :=
  cs.foldl (fun acc c => 10 * acc + (c.toNat - 48)) 0

/-- Exponent part of a decimal literal: an optional sign and a nonempty
digit string, which must consume the whole remainder. -/
def parseExpPart (m : ℚ) (cs : List Char) : Option ℚ :=
  match cs with
  | [] => some m
  | c :: t =>
    if c = 'e' ∨ c = 'E' then
      let st : Bool × List Char :=
        match t with
        | '+' :: u => (false, u)
        | '-' :: u => (true, u)
        | u => (false, u)
      let ds := st.2.takeWhile Char.isDigit
      let rest := st.2.dropWhile Char.isDigit
      if ds.isEmpty ∨ ¬ rest.isEmpty then none
      else if st.1 then some (m / (10 : ℚ) ^ digitsToNat ds)
      else some (m * (10 : ℚ) ^ digitsToNat ds)
    else none

/-- Unsigned decimal literal: digits with an optional fractional part (at
least one digit overall) and an optional exponent. -/
def parseUnsigned (cs : List Char) : Option ℚ :=
  let ip := cs.takeWhile Char.isDigit
  let r1 := cs.dropWhile Char.isDigit
  match r1 with
  | '.' :: t =>
    let fp := t.takeWhile Char.isDigit
    let r2 := t.dropWhile Char.isDigit
    if ip.isEmpty ∧ fp.isEmpty then none
    else parseExpPart ((digitsToNat ip : ℚ) + (digitsToNat fp : ℚ) / (10 : ℚ) ^ fp.length) r2
  | _ => if ip.isEmpty then none else parseExpPart (digitsToNat ip : ℚ) r1

/-- Model of the language primitive float() on strings, covering finite
decimal literals with optional sign, fraction and exponent.  Whitespace,
digit-group underscores and the special literals inf and nan are outside
this rational model. -/
def parseFloat? (s : String) : Option ℚ :=
  match s.toList with
  | '+' :: r => parseUnsigned r
  | '-' :: r => (parseUnsigned r).map (fun q => -q)
  | r => parseUnsigned r

/-- The sentinel membership test value in the list None, N-slash-A, empty string, None-string,
null-string, 0 of the source, under the cross-type equality of the language: a
number equals 0 exactly when it is zero, and no string equals the number
0. -/
def isSentinel : YVal → Bool
  | .vnone => true
  | .vnum q => q == 0
  | .vstr s => s == "N/A" || s == "" || s == "None" || s == "null"
  | _ => false

/-- Result of float(value) inside safe extraction: a finite number, an
infinity (signalled separately since rationals have none), or a raised
conversion error. -/
inductive FloatRes where
  | ok : ℚ → FloatRes
  | infOut : FloatRes
  | err : FloatRes
  deriving DecidableEq

/-- float(value) for values reaching the conversion: numbers pass
through, infinities stay infinite, unparsable strings raise ValueError,
None raises TypeError (unreachable behind the sentinel test). -/
def tryFloat : YVal → FloatRes
  | .vnum q => .ok q
  | .vinf => .infOut
  | .vninf => .infOut
  | .vstr s =>
    match parseFloat? s with
    | some q => .ok q
    | none => .err
  | .vnone => .err

/-- Fields that are structurally non-negative. -/
def negativeInvalidKeys : List String :=
  ["marketCap", "enterpriseValue", "totalRevenue", "totalCash", "totalDebt"]

/-- Issue string for a negative structurally non-negative field (numeric
rendering simplified to exact rationals). -/
def negIssue (key : String) (q : ℚ) : String :=
  "Negative value for " ++ key ++ ": " ++ toString q

/-- Issue string for a failed numeric coercion (the source also includes
the exception text). -/
def parseIssue (key : String) : String :=
  "Could not parse " ++ key

/-- _safe_extract: the extracted value together with the data-quality
issues appended by this call, in order. -/
def safe_extract (info : Info) (key : String) : Option ℚ × List String :=
  let v := info key
  if isSentinel v then (none, [])
  else
    match tryFloat v with
    | .ok q =>
      if key ∈ negativeInvalidKeys ∧ q < 0 then (none, [negIssue key q])
      else (some q, [])
    | .infOut => (none, [])
    | .err => (none, [parseIssue key])

/-- Truthiness of an optional float (None and 0.0 are falsy). -/
def pytruthy : Option ℚ → Bool
  | some q => q != 0
  | none => false

/-- Round to the nearest integer, ties to even (the round primitive of the language). -/
def rhe (q : ℚ) : ℤ :=
  let f := ⌊q⌋
  let r := q - f
  if r < 1 / 2 then f
  else if 1 / 2 < r then f + 1
  else if f % 2 = 0 then f else f + 1

/-- round(x, 2): round to two decimal places, ties to even. -/
def round2 (q : ℚ) : ℚ := (rhe (100 * q) : ℚ) / 100

/-- One OHLCV chart point as assembled by the history loader. -/
structure PricePoint where
  date : String
  price : ℚ
  high : ℚ
  low : ℚ
  volume : ℤ
  deriving DecidableEq

def defaultPoint : PricePoint := ⟨"", 0, 0, 0, 0⟩

/-- Prices in the centered window over indices
[max(0, i - ws/2), min(len, i + ws/2 + 1)) (natural subtraction realizes
the clipping at 0). -/
def windowPrices (d : List PricePoint) (ws i : ℕ) : List ℚ :=
  ((d.drop (i - ws / 2)).take (min d.length (i + ws / 2 + 1) - (i - ws / 2))).map
    PricePoint.price

/-- Median of a list after ascending sort, exactly as the source computes
it from the sorted window (middle element when odd, mean of the two
middle elements when even). -/
def medianOf (l : List ℚ) : ℚ :=
  let s := List.insertionSort (fun a b => a ≤ b) l
  let n := s.length
  if n % 2 = 1 then s.getD (n / 2) 0
  else (s.getD (n / 2 - 1) 0 + s.getD (n / 2) 0) / 2

def windowMedian (d : List PricePoint) (ws i : ℕ) : ℚ :=
  medianOf (windowPrices d ws i)

/-- The corrected point written at an anomalous index: the replacement
price z (window median or neighbour mean) is rounded to two decimals,
then high and low are recomputed from the stored new price. -/
def correctedPoint (p0 : PricePoint) (z : ℚ) : PricePoint :=
  { p0 with
    price := round2 z
    high := round2 (max (round2 z * (102 / 100)) p0.high)
    low := round2 (min (round2 z * (98 / 100)) p0.low) }

/-- One iteration of the smoothing loop at index i: replace an anomalous
price by the window median (at either end of the series) or by the mean
of its immediate neighbours, then recompute high and low. -/
def smoothStep (ws : ℕ) (t : ℚ) (d : List PricePoint) (i : ℕ) : List PricePoint :=
  let med := windowMedian d ws i
  let p := d.getD i defaultPoint
  if p.price > med * t ∨ p.price < med / t then
    d.set i
      (correctedPoint p
        (if i = 0 then med
         else if i = d.length - 1 then med
         else ((d.getD (i - 1) defaultPoint).price + (d.getD (i + 1) defaultPoint).price) / 2))
  else d

/-- smooth_price_anomalies: no-op below 10 points, otherwise a single
left-to-right pass mutating the (copied) series in place. -/
def smooth_price_anomalies (chart_data : List PricePoint) (threshold_multiplier : ℚ := 3) :
    List PricePoint :=
  if chart_data.length < 10 then chart_data
  else
    let ws := min 10 (chart_data.length / 4)
    (List.range chart_data.length).foldl (smoothStep ws threshold_multiplier) chart_data

/-- The anomaly condition of the smoothing loop, read off the unmodified
input series, at the default threshold multiplier 3. -/
def anomalyAt (d : List PricePoint) (i : ℕ) : Prop :=
  (d.getD i defaultPoint).price > windowMedian d (min 10 (d.length / 4)) i * 3 ∨
  (d.getD i defaultPoint).price < windowMedian d (min 10 (d.length / 4)) i / 3

instance anomalyAtDecidable (d : List PricePoint) (i : ℕ) : Decidable (anomalyAt d i) := by
  unfold anomalyAt
  exact inferInstance

/-- The OHLC invariant of a point, together with price non-negativity. -/
def PtInv (p : PricePoint) : Prop :=
  0 ≤ p.price ∧ p.low ≤ p.price ∧ p.price ≤ p.high

/-- Executable OHLC invariant check over a whole series. -/
def ohlcOK (d : List PricePoint) : Bool :=
  d.all (fun p => decide (p.low ≤ p.price) && decide (p.price ≤ p.high))

theorem rhe_ge_floor (q : ℚ) : ⌊q⌋ ≤ rhe q := by
  simp only [rhe]
  split_ifs <;> omega

theorem rhe_le_floor_add_one (q : ℚ) : rhe q ≤ ⌊q⌋ + 1 := by
  simp only [rhe]
  split_ifs <;> omega

theorem rhe_intCast (n : ℤ) : rhe (n : ℚ) = n := by
  simp only [rhe, Int.floor_intCast, sub_self]
  norm_num

theorem rhe_mono {a b : ℚ} (h : a ≤ b) : rhe a ≤ rhe b := by
  have hfl : ⌊a⌋ ≤ ⌊b⌋ := Int.floor_le_floor h
  rcases eq_or_lt_of_le hfl with heq | hlt
  · have hr : a - (⌊a⌋ : ℚ) ≤ b - (⌊b⌋ : ℚ) := by
      rw [heq] at *
      linarith
    simp only [rhe]
    rw [← heq]
    split_ifs <;> first | omega | (exfalso; rw [← heq] at hr; linarith)
  · have h1 := rhe_le_floor_add_one a
    have h2 := rhe_ge_floor b
    omega

theorem round2_mono {a b : ℚ} (h : a ≤ b) : round2 a ≤ round2 b := by
  unfold round2
  have := rhe_mono (mul_le_mul_of_nonneg_left h (by norm_num : (0 : ℚ) ≤ 100))
  have hc : ((rhe (100 * a) : ℚ)) ≤ ((rhe (100 * b) : ℚ)) := by exact_mod_cast this
  linarith

theorem round2_nonneg {q : ℚ} (h : 0 ≤ q) : 0 ≤ round2 q := by
  unfold round2
  have h1 : (0 : ℤ) ≤ ⌊100 * q⌋ := Int.floor_nonneg.mpr (by linarith)
  have h2 := rhe_ge_floor (100 * q)
  have hc : (0 : ℚ) ≤ (rhe (100 * q) : ℚ) := by exact_mod_cast le_trans h1 h2
  linarith

theorem round2_idem (q : ℚ) : round2 (round2 q) = round2 q := by
  unfold round2
  have h100 : (100 : ℚ) * ((rhe (100 * q) : ℚ) / 100) = (rhe (100 * q) : ℚ) := by
    field_simp
  rw [h100, rhe_intCast]

theorem correctedPoint_inv (p0 : PricePoint) (z : ℚ) (hz : 0 ≤ z) :
    PtInv (correctedPoint p0 z) := by
  have hnp : 0 ≤ round2 z := round2_nonneg hz
  refine ⟨hnp, ?_, ?_⟩
  · show round2 (min (round2 z * (98 / 100)) p0.low) ≤ round2 z
    have h1 : min (round2 z * (98 / 100)) p0.low ≤ round2 z * (98 / 100) := min_le_left _ _
    have h2 : round2 z * (98 / 100) ≤ round2 z := by nlinarith
    calc round2 (min (round2 z * (98 / 100)) p0.low) ≤ round2 (round2 z) :=
          round2_mono (h1.trans h2)
      _ = round2 z := round2_idem z
  · show round2 z ≤ round2 (max (round2 z * (102 / 100)) p0.high)
    have h1 : round2 z ≤ round2 z * (102 / 100) := by nlinarith
    have h2 : round2 z * (102 / 100) ≤ max (round2 z * (102 / 100)) p0.high := le_max_left _ _
    calc round2 z = round2 (round2 z) := (round2_idem z).symm
      _ ≤ round2 (max (round2 z * (102 / 100)) p0.high) := round2_mono (h1.trans h2)

theorem getD_price_nonneg {l : List PricePoint} (h : ∀ p ∈ l, PtInv p) (k : ℕ) :
    0 ≤ (l.getD k defaultPoint).price := by
  induction l generalizing k with
  | nil => simp [List.getD, defaultPoint]
  | cons a t ih =>
    cases k with
    | zero => exact (h a (by simp)).1
    | succ m =>
      simp only [List.getD_cons_succ]
      exact ih (fun p hp => h p (by simp [hp])) m

theorem getD_rat_nonneg {l : List ℚ} (h : ∀ x ∈ l, 0 ≤ x) (k : ℕ) : 0 ≤ l.getD k 0 := by
  induction l generalizing k with
  | nil => simp [List.getD]
  | cons a t ih =>
    cases k with
    | zero => exact h a (by simp)
    | succ m =>
      simp only [List.getD_cons_succ]
      exact ih (fun x hx => h x (by simp [hx])) m

theorem medianOf_nonneg {l : List ℚ} (h : ∀ x ∈ l, 0 ≤ x) : 0 ≤ medianOf l := by
  simp only [medianOf]
  have hs : ∀ x ∈ List.insertionSort (fun a b => a ≤ b) l, 0 ≤ x := by
    intro x hx
    exact h x ((List.perm_insertionSort _ l).mem_iff.mp hx)
  split
  · exact getD_rat_nonneg hs _
  · have h1 := getD_rat_nonneg hs ((List.insertionSort (fun a b => a ≤ b) l).length / 2 - 1)
    have h2 := getD_rat_nonneg hs ((List.insertionSort (fun a b => a ≤ b) l).length / 2)
    linarith

theorem windowMedian_nonneg {d : List PricePoint} (h : ∀ p ∈ d, PtInv p) (ws i : ℕ) :
    0 ≤ windowMedian d ws i := by
  unfold windowMedian
  apply medianOf_nonneg
  intro x hx
  unfold windowPrices at hx
  obtain ⟨p, hp, rfl⟩ := List.mem_map.mp hx
  exact (h p (List.mem_of_mem_drop (List.mem_of_mem_take hp))).1

theorem smoothStep_inv (ws : ℕ) (t : ℚ) (d : List PricePoint) (i : ℕ)
    (h : ∀ p ∈ d, PtInv p) : ∀ p ∈ smoothStep ws t d i, PtInv p := by
  simp only [smoothStep]
  split
  · intro p hp
    rcases List.mem_or_eq_of_mem_set hp with hold | rfl
    · exact h p hold
    · apply correctedPoint_inv
      split
      · exact windowMedian_nonneg h ws i
      · split
        · exact windowMedian_nonneg h ws i
        · have h1 := getD_price_nonneg h (i - 1)
          have h2 := getD_price_nonneg h (i + 1)
          linarith
  · exact h

theorem foldl_smoothStep_inv (ws : ℕ) (t : ℚ) (idxs : List ℕ) :
    ∀ d : List PricePoint, (∀ p ∈ d, PtInv p) →
      ∀ p ∈ idxs.foldl (smoothStep ws t) d, PtInv p := by
  induction idxs with
  | nil => intro d h; simpa using h
  | cons i rest ih =>
    intro d h
    simp only [List.foldl_cons]
    exact ih _ (smoothStep_inv ws t d i h)

theorem smoothStep_id (ws : ℕ) (t : ℚ) (d : List PricePoint) (i : ℕ)
    (hno : ¬ ((d.getD i defaultPoint).price > windowMedian d ws i * t ∨
              (d.getD i defaultPoint).price < windowMedian d ws i / t)) :
    smoothStep ws t d i = d := by
  simp only [smoothStep]
  rw [if_neg hno]

theorem foldl_smoothStep_id (ws : ℕ) (t : ℚ) (d : List PricePoint) (idxs : List ℕ)
    (hno : ∀ i ∈ idxs, ¬ ((d.getD i defaultPoint).price > windowMedian d ws i * t ∨
                          (d.getD i defaultPoint).price < windowMedian d ws i / t)) :
    idxs.foldl (smoothStep ws t) d = d := by
  induction idxs with
  | nil => rfl
  | cons i rest ih =>
    simp only [List.foldl_cons]
    rw [smoothStep_id ws t d i (hno i (by simp))]
    exact ih (fun j hj => hno j (by simp [hj]))

/-- A twelve-point series with negative prices that satisfies the OHLC
invariant pointwise; the smoothing pass breaks the invariant on it. -/
def cexC8 : List PricePoint :=
  [⟨"", -1, -9/10, -11/10, 0⟩, ⟨"", -1, -9/10, -11/10, 0⟩, ⟨"", -1, -9/10, -11/10, 0⟩,
   ⟨"", -1, -9/10, -11/10, 0⟩, ⟨"", -1, -9/10, -11/10, 0⟩, ⟨"", -100, -199/2, -201/2, 0⟩,
   ⟨"", -1, -9/10, -11/10, 0⟩, ⟨"", -1, -9/10, -11/10, 0⟩, ⟨"", -1, -9/10, -11/10, 0⟩,
   ⟨"", -1, -9/10, -11/10, 0⟩, ⟨"", -1, -9/10, -11/10, 0⟩, ⟨"", -1, -9/10, -11/10, 0⟩]

/-- C8: the claim as stated is false.  cexC8 satisfies high ≥ price ≥ low
at every point, yet after smoothing the point at index 4 has price -50.5
and low -49.49 (for a negative replacement price, newPrice × 0.98 lies
above newPrice, so the recomputed low can exceed the price).  The first
conjunct checks the hypothesis of the claim, the second refutes its
conclusion, and the third pins down the violating point. -/
theorem claim_C8_ohlc_counterexample :
    ohlcOK cexC8 = true ∧
    ohlcOK (smooth_price_anomalies cexC8 3) = false ∧
    ((smooth_price_anomalies cexC8 3).getD 4 defaultPoint).price <
      ((smooth_price_anomalies cexC8 3).getD 4 defaultPoint).low := by
  refine ⟨by decide, by decide, by decide⟩

/-- C8 (amended): for input series whose prices are all non-negative (as
every real price series is), the smoothing pass preserves the OHLC
invariant high ≥ price ≥ low at every point. -/
theorem claim_C8_ohlc_preserved (d : List PricePoint) (t : ℚ)
    (h : ∀ p ∈ d, 0 ≤ p.price ∧ p.low ≤ p.price ∧ p.price ≤ p.high) :
    ∀ p ∈ smooth_price_anomalies d t, p.low ≤ p.price ∧ p.price ≤ p.high := by
  have hinv : ∀ p ∈ d, PtInv p := h
  have hres : ∀ p ∈ smooth_price_anomalies d t, PtInv p := by
    unfold smooth_price_anomalies
    split
    · exact hinv
    · exact foldl_smoothStep_inv _ t _ d hinv
  exact fun p hp => (hres p hp).2

/-- A non-negative twelve-point series containing a genuine spike, used
to instantiate the preservation theorem. -/
def witC8 : List PricePoint :=
  [⟨"", 100, 102, 98, 0⟩, ⟨"", 100, 102, 98, 0⟩, ⟨"", 100, 102, 98, 0⟩,
   ⟨"", 100, 102, 98, 0⟩, ⟨"", 100, 102, 98, 0⟩, ⟨"", 1000, 1001, 999, 0⟩,
   ⟨"", 100, 102, 98, 0⟩, ⟨"", 100, 102, 98, 0⟩, ⟨"", 100, 102, 98, 0⟩,
   ⟨"", 100, 102, 98, 0⟩, ⟨"", 100, 102, 98, 0⟩, ⟨"", 100, 102, 98, 0⟩]

theorem claim_C8_ohlc_preserved_witness :
    ohlcOK (smooth_price_anomalies witC8 3) = true := by
  have h := claim_C8_ohlc_preserved witC8 3 (by decide)
  unfold ohlcOK
  rw [List.all_eq_true]
  intro p hp
  have hip := h p hp
  rw [Bool.and_eq_true, decide_eq_true_iff, decide_eq_true_iff]
  exact hip

/-- A five-point series (below the ten-point minimum). -/
def witC10a : List PricePoint :=
  [⟨"", 100, 102, 98, 0⟩, ⟨"", 50, 51, 49, 0⟩, ⟨"", 100, 102, 98, 0⟩,
   ⟨"", 400, 401, 399, 0⟩, ⟨"", 100, 102, 98, 0⟩]

/-- A twelve-point anomaly-free series. -/
def witC10b : List PricePoint :=
  [⟨"", 100, 102, 98, 0⟩, ⟨"", 101, 103, 99, 0⟩, ⟨"", 102, 104, 100, 0⟩,
   ⟨"", 103, 105, 101, 0⟩, ⟨"", 104, 106, 102, 0⟩, ⟨"", 105, 107, 103, 0⟩,
   ⟨"", 106, 108, 104, 0⟩, ⟨"", 107, 109, 105, 0⟩, ⟨"", 108, 110, 106, 0⟩,
   ⟨"", 109, 111, 107, 0⟩, ⟨"", 110, 112, 108, 0⟩, ⟨"", 111, 113, 109, 0⟩]

/-- C10: smoothing is the identity on anomaly-free input: every series
shorter than ten points is returned unchanged, and so is every series in
which the price of no point exceeds its rolling-window median times the
threshold multiplier 3 or falls below the median divided by it. -/
theorem claim_C10_smooth_identity (d : List PricePoint) :
    (d.length < 10 → smooth_price_anomalies d 3 = d) ∧
    ((∀ i, i < d.length → ¬ anomalyAt d i) → smooth_price_anomalies d 3 = d) := by
  constructor
  · intro hlen
    unfold smooth_price_anomalies
    rw [if_pos hlen]
  · intro hno
    unfold smooth_price_anomalies
    split
    · rfl
    · apply foldl_smoothStep_id
      intro i hi
      have hilt : i < d.length := List.mem_range.mp hi
      exact hno i hilt

theorem claim_C10_smooth_identity_witness :
    smooth_price_anomalies witC10a 3 = witC10a ∧
    smooth_price_anomalies witC10b 3 = witC10b := by
  constructor
  · exact (claim_C10_smooth_identity witC10a).1 (by decide)
  · exact (claim_C10_smooth_identity witC10b).2 (by decide)

/-- The performance record built by the calculator. -/
structure PerformanceMetrics where
  performance_5y : ℚ
  performance_2y : ℚ
  performance_1y : ℚ
  volatility : ℚ
  deriving DecidableEq

def isLeapYear (y : ℕ) : Bool :=
  y % 4 = 0 && (y % 100 != 0 || y % 400 = 0)

def daysInMonth (y m : ℕ) : ℕ :=
  if m = 2 then (if isLeapYear y then 29 else 28)
  else if m = 4 ∨ m = 6 ∨ m = 9 ∨ m = 11 then 30
  else 31

structure CalDate where
  year : ℕ
  month : ℕ
  day : ℕ
  deriving DecidableEq

/-- strptime(s, percent-Y-m-d): a four digit year and two digit month and
day, fully validated; an impossible calendar date raises ValueError,
modelled as none. -/
def parseDate? (s : String) : Option CalDate :=
  match s.toList with
  | [y1, y2, y3, y4, '-', m1, m2, '-', d1, d2] =>
    if y1.isDigit && y2.isDigit && y3.isDigit && y4.isDigit &&
        m1.isDigit && m2.isDigit && d1.isDigit && d2.isDigit then
      let y := digitsToNat [y1, y2, y3, y4]
      let m := digitsToNat [m1, m2]
      let d := digitsToNat [d1, d2]
      if 1 ≤ m ∧ m ≤ 12 ∧ 1 ≤ d ∧ d ≤ daysInMonth y m then some ⟨y, m, d⟩ else none
    else none
  | _ => none

/-- date.replace(year := y): raises ValueError (none) when the stored day
does not exist in the same month of the target year, e.g. February 29
moved into a non-leap year. -/
def replaceYear (d : CalDate) (y : ℕ) : Option CalDate :=
  if d.day ≤ daysInMonth y d.month then some ⟨y, d.month, d.day⟩ else none

def pad2 (n : ℕ) : String := if n < 10 then "0" ++ toString n else toString n

def pad4 (n : ℕ) : String :=
  if n < 10 then "000" ++ toString n
  else if n < 100 then "00" ++ toString n
  else if n < 1000 then "0" ++ toString n
  else toString n

/-- strftime(percent-Y-m-d). -/
def fmtDate (d : CalDate) : String :=
  pad4 d.year ++ "-" ++ pad2 d.month ++ "-" ++ pad2 d.day

/-- pct_change: zero for a non-positive base price. -/
def pctChange (old_price new_price : ℚ) : ℚ :=
  if old_price ≤ 0 then 0 else (new_price - old_price) / old_price * 100

/-- Integer-square-root stand-in for the floating point
x ** 0.5: exact square roots of rationals are irrational in general, and
no claim here depends on the numeric value of the volatility field. -/
def sqrtApprox (q : ℚ) : ℚ :=
  (Nat.sqrt (q.num.toNat * q.den) : ℚ) / (q.den : ℚ)

/-- First chart point whose date (lexicographic ISO comparison, as the
source compares the date strings) is on or after the target, else the
first point of the chart. -/
def find_price_on_or_after (chart : List PricePoint) (target : String) : ℚ :=
  match chart.find? (fun pt => decide (target ≤ pt.date)) with
  | some pt => pt.price
  | none => (chart.headD defaultPoint).price

/-- calculate_performance_metrics.  Below two points it returns the
all-zero record; otherwise it parses the date of the last point and shifts it
back one and two years with date.replace, which raises ValueError
(modelled as Except.error) when the shifted date does not exist. -/
def calculate_performance_metrics (chart : List PricePoint) :
    Except String PerformanceMetrics :=
  if chart.length < 2 then .ok ⟨0, 0, 0, 0⟩
  else
    let first_price := (chart.headD defaultPoint).price
    let lastPt := chart.getLastD defaultPoint
    let last_price := lastPt.price
    match parseDate? lastPt.date with
    | none => .error "ValueError: time data does not match format"
    | some end_date =>
      match replaceYear end_date (end_date.year - 2) with
      | none => .error "ValueError: day is out of range for month"
      | some d2y =>
        match replaceYear end_date (end_date.year - 1) with
        | none => .error "ValueError: day is out of range for month"
        | some d1y =>
          let price_2y_ago := find_price_on_or_after chart (fmtDate d2y)
          let price_1y_ago := find_price_on_or_after chart (fmtDate d1y)
          let sample := if chart.length ≥ 252 then chart.drop (chart.length - 252) else chart
          let returns := (sample.zip (sample.drop 1)).filterMap
            (fun pr => if pr.1.price > 0 then some ((pr.2.price - pr.1.price) / pr.1.price)
                       else none)
          let volatility :=
            if returns.isEmpty then 0
            else
              let avg := returns.sum / (returns.length : ℚ)
              let variance := (returns.map (fun r => (r - avg) ^ 2)).sum / (returns.length : ℚ)
              sqrtApprox variance * sqrtApprox 252 * 100
          .ok ⟨round2 (pctChange first_price last_price),
               round2 (pctChange price_2y_ago last_price),
               round2 (pctChange price_1y_ago last_price),
               round2 volatility⟩

/-- A two-point chart with valid, strictly ascending trading dates ending
on the real trading day 2024-02-29. -/
def chartC9 : List PricePoint :=
  [⟨"2024-02-28", 100, 102, 98, 1000⟩, ⟨"2024-02-29", 101, 103, 99, 1200⟩]

/-- C9: the claim is false on the code (and the code contradicts the
stated no-raise design policy): on a well-formed ascending two-point chart
ending on February 29 of a leap year, the year-shift
end_date.replace(year := end_date.year - 2) raises ValueError, so the
calculator raises instead of returning a best-effort record.  The first
conjuncts certify the input is well-formed (two points, and both dates
parse as valid calendar dates, in ascending order); the last exhibits
the raised error. -/
theorem claim_C9_performance_raises :
    chartC9.length = 2 ∧
    (∀ p ∈ chartC9, (parseDate? p.date).isSome = true) ∧
    parseDate? (chartC9.getD 0 defaultPoint).date = some ⟨2024, 2, 28⟩ ∧
    parseDate? (chartC9.getD 1 defaultPoint).date = some ⟨2024, 2, 29⟩ ∧
    calculate_performance_metrics chartC9 = .error "ValueError: day is out of range for month" := by
  refine ⟨rfl, by decide, by decide, by decide, by rfl⟩

/-- A statement table: rows keyed by line-item name, columns by reporting
period (most recent first, abstracted as numeric period ids), cells
possibly missing (the not-a-number sentinel of the table). -/
structure StmtTable where
  rows : List String
  cols : List ℕ
  cell : String → ℕ → Option ℚ

/-- DataFrame.empty: true when either axis has length zero. -/
def StmtTable.isEmptyTable (t : StmtTable) : Bool :=
  t.rows.isEmpty || t.cols.isEmpty

/-- The record built by _get_robust_financial_metrics.  The source keeps
latest-period floats that may be NaN in the estimated branch; those are
modelled as the raw optional cell. -/
structure TTMResult where
  ebitda_ttm : Option ℚ := none
  ebitda_latest : Option ℚ := none
  ebitda_source : Option String := none
  ebitda_period : Option String := none
  total_revenue_ttm : Option ℚ := none
  total_revenue_latest : Option ℚ := none
  revenue_source : Option String := none
  revenue_period : Option String := none
  data_timestamp : Option ℕ := none
  data_quality_issues : List String := []

def ebitdaKeys : List String := ["EBITDA", "Normalized EBITDA"]

def revenueKeys : List String := ["Total Revenue", "Revenue", "Net Sales"]

def annualEbitdaKeys : List String := ["EBITDA", "Normalized EBITDA", "EBIT", "Operating Income"]

/-- The non-null values among the most recent four quarterly columns for
one line item, in column order. -/
def firstFour (qt : StmtTable) (key : String) : List ℚ :=
  (qt.cols.take 4).filterMap (qt.cell key)

/-- Issue emitted by the quarterly estimate tier. -/
def estimIssue (n : ℕ) : String :=
  "TTM EBITDA estimated from " ++ toString n ++ " quarters"

/-- The quarterly EBITDA loop: first alias present in the index with at
least four non-null recent cells gives the summed TTM; two or three
non-null cells give the annualized estimate plus an issue; otherwise the
next alias is tried. -/
def quarterlyEbitdaGo (qt : StmtTable) : List String → TTMResult → TTMResult
  | [], r => r
  | key :: rest, r =>
    if qt.rows.contains key then
      let vals := firstFour qt key
      if vals.length ≥ 4 then
        { r with
          ebitda_ttm := some vals.sum
          ebitda_latest := qt.cell key (qt.cols.headD 0)
          ebitda_source := some ("quarterly_ttm." ++ key)
          ebitda_period := some ("TTM_ending_" ++ toString (qt.cols.headD 0))
          data_timestamp := some (qt.cols.headD 0) }
      else if vals.length ≥ 2 then
        { r with
          ebitda_ttm := some (vals.sum / (vals.length : ℚ) * 4)
          ebitda_latest := qt.cell key (qt.cols.headD 0)
          ebitda_source := some ("quarterly_estimated." ++ key)
          ebitda_period := some ("TTM_estimated_" ++ toString vals.length ++ "Q")
          data_quality_issues := r.data_quality_issues ++ [estimIssue vals.length] }
      else quarterlyEbitdaGo qt rest r
    else quarterlyEbitdaGo qt rest r

/-- The quarterly revenue loop: only the four-full-quarters tier exists
for revenue (no estimate branch). -/
def quarterlyRevenueGo (qt : StmtTable) : List String → TTMResult → TTMResult
  | [], r => r
  | key :: rest, r =>
    if qt.rows.contains key ∧ r.total_revenue_ttm = none then
      let vals := firstFour qt key
      if vals.length ≥ 4 then
        { r with
          total_revenue_ttm := some vals.sum
          total_revenue_latest := qt.cell key (qt.cols.headD 0)
          revenue_source := some ("quarterly_ttm." ++ key)
          revenue_period := some ("TTM_ending_" ++ toString (qt.cols.headD 0)) }
      else quarterlyRevenueGo qt rest r
    else quarterlyRevenueGo qt rest r

/-- Method 1: both quarterly loops, guarded by a non-empty table with at
least four columns. -/
def quarterlyStage (qt : StmtTable) (r : TTMResult) : TTMResult :=
  if ¬ qt.isEmptyTable = true ∧ qt.cols.length ≥ 4 then
    quarterlyRevenueGo qt revenueKeys (quarterlyEbitdaGo qt ebitdaKeys r)
  else r

/-- The annual EBITDA loop: first alias whose latest-year cell is
non-null and nonzero wins. -/
def annualEbitdaGo (an : StmtTable) : List String → TTMResult → TTMResult
  | [], r => r
  | key :: rest, r =>
    if an.rows.contains key then
      match an.cell key (an.cols.headD 0) with
      | some v =>
        if v ≠ 0 then
          { r with
            ebitda_ttm := some v
            ebitda_latest := some v
            ebitda_source := some ("annual_financials." ++ key)
            ebitda_period := some (toString (an.cols.headD 0))
            data_timestamp := some (an.cols.headD 0) }
        else annualEbitdaGo an rest r
      | none => annualEbitdaGo an rest r
    else annualEbitdaGo an rest r

/-- The annual revenue loop, same shape. -/
def annualRevenueGo (an : StmtTable) : List String → TTMResult → TTMResult
  | [], r => r
  | key :: rest, r =>
    if an.rows.contains key then
      match an.cell key (an.cols.headD 0) with
      | some v =>
        if v ≠ 0 then
          { r with
            total_revenue_ttm := some v
            total_revenue_latest := some v
            revenue_source := some ("annual_financials." ++ key)
            revenue_period := some (toString (an.cols.headD 0)) }
        else annualRevenueGo an rest r
      | none => annualRevenueGo an rest r
    else annualRevenueGo an rest r

/-- Method 2, run only when quarterly left EBITDA unresolved; the annual
revenue fallback is nested inside this same guard in the source, so
revenue reaches its annual tier only when EBITDA also missed the
quarterly tiers. -/
def annualStage (an : StmtTable) (r : TTMResult) : TTMResult :=
  if ¬ an.isEmptyTable = true ∧ an.cols.length > 0 then
    let r2 := annualEbitdaGo an annualEbitdaKeys r
    if r2.total_revenue_ttm = none then annualRevenueGo an revenueKeys r2 else r2
  else r

/-- Truthiness of a raw info value. -/
def yvTruthy : YVal → Bool
  | .vnone => false
  | .vnum q => q != 0
  | .vstr s => s != ""
  | .vinf => true
  | .vninf => true

/-- Inequality of a raw info value against the number 0. -/
def yvNe0 : YVal → Bool
  | .vnum q => q != 0
  | _ => true

/-- float(value) on a raw info value, with raising paths as errors.  The
source produces an IEEE infinity for infinite inputs; that value has no
rational counterpart, and no claim depends on it. -/
def pyFloatE : YVal → Except String ℚ
  | .vnum q => .ok q
  | .vstr s =>
    match parseFloat? s with
    | some q => .ok q
    | none => .error "ValueError: could not convert string to float"
  | .vnone => .error "TypeError: float() argument is None"
  | .vinf => .error "infinite float outside the rational model"
  | .vninf => .error "infinite float outside the rational model"

def infoDictEbitdaIssue : String := "Using info dict EBITDA (TTM status uncertain)"

/-- Method 3 for EBITDA: the info-dict scalar, always flagged. -/
def m3Ebitda (info : Info) (r : TTMResult) : Except String TTMResult :=
  if r.ebitda_ttm = none then
    let v := info "ebitda"
    if yvTruthy v && yvNe0 v then
      match pyFloatE v with
      | .ok q =>
        .ok { r with
              ebitda_ttm := some q
              ebitda_latest := some q
              ebitda_source := some "info_dict"
              ebitda_period := some "TTM_estimated"
              data_quality_issues := r.data_quality_issues ++ [infoDictEbitdaIssue] }
      | .error e => .error e
    else .ok r
  else .ok r

/-- Method 3 for revenue: the info-dict scalar, with no issue emitted. -/
def m3Revenue (info : Info) (r : TTMResult) : Except String TTMResult :=
  if r.total_revenue_ttm = none then
    let v := info "totalRevenue"
    if yvTruthy v && yvNe0 v then
      match pyFloatE v with
      | .ok q =>
        .ok { r with
              total_revenue_ttm := some q
              total_revenue_latest := some q
              revenue_source := some "info_dict"
              revenue_period := some "TTM_estimated" }
      | .error e => .error e
    else .ok r
  else .ok r

/-- _get_robust_financial_metrics: quarterly tiers, then the annual
fallback when quarterly left EBITDA unresolved, then the info-dict
fallbacks.  The try/except wrappers of the source guard provider exceptions,
which do not arise in this embedding of in-memory tables. -/
def get_robust_financial_metrics (qt an : StmtTable) (info : Info) :
    Except String TTMResult :=
  let r1 := quarterlyStage qt {}
  let r2 := if r1.ebitda_ttm = none then annualStage an r1 else r1
  match m3Ebitda info r2 with
  | .error e => .error e
  | .ok r3 => m3Revenue info r3

theorem quarterlyRevenueGo_ebitda (qt : StmtTable) (keys : List String) (r : TTMResult) :
    (quarterlyRevenueGo qt keys r).ebitda_ttm = r.ebitda_ttm ∧
    (quarterlyRevenueGo qt keys r).ebitda_source = r.ebitda_source ∧
    (quarterlyRevenueGo qt keys r).data_quality_issues = r.data_quality_issues := by
  induction keys generalizing r with
  | nil => exact ⟨rfl, rfl, rfl⟩
  | cons key rest ih =>
    simp only [quarterlyRevenueGo]
    split
    · split
      · exact ⟨rfl, rfl, rfl⟩
      · exact ih r
    · exact ih r

theorem quarterlyEbitdaGo_revenue (qt : StmtTable) (keys : List String) (r : TTMResult) :
    (quarterlyEbitdaGo qt keys r).total_revenue_ttm = r.total_revenue_ttm ∧
    (quarterlyEbitdaGo qt keys r).revenue_source = r.revenue_source := by
  induction keys generalizing r with
  | nil => exact ⟨rfl, rfl⟩
  | cons key rest ih =>
    simp only [quarterlyEbitdaGo]
    split
    · split
      · exact ⟨rfl, rfl⟩
      · split
        · exact ⟨rfl, rfl⟩
        · exact ih r
    · exact ih r

theorem quarterlyRevenueGo_no4 (qt : StmtTable) (keys : List String) (r : TTMResult)
    (hall : ∀ key ∈ keys, qt.rows.contains key = true → (firstFour qt key).length < 4) :
    (quarterlyRevenueGo qt keys r).total_revenue_ttm = r.total_revenue_ttm ∧
    (quarterlyRevenueGo qt keys r).revenue_source = r.revenue_source := by
  induction keys generalizing r with
  | nil => exact ⟨rfl, rfl⟩
  | cons key rest ih =>
    simp only [quarterlyRevenueGo]
    split
    case isTrue hin =>
      have hlt := hall key (by simp) hin.1
      rw [if_neg (by omega)]
      exact ih r (fun k2 hk2 => hall k2 (by simp [hk2]))
    case isFalse hin =>
      exact ih r (fun k2 hk2 => hall k2 (by simp [hk2]))

theorem annualEbitdaGo_revenue (an : StmtTable) (keys : List String) (r : TTMResult) :
    (annualEbitdaGo an keys r).total_revenue_ttm = r.total_revenue_ttm ∧
    (annualEbitdaGo an keys r).revenue_source = r.revenue_source := by
  induction keys generalizing r with
  | nil => exact ⟨rfl, rfl⟩
  | cons key rest ih =>
    simp only [annualEbitdaGo]
    split
    · split
      · split
        · exact ⟨rfl, rfl⟩
        · exact ih r
      · exact ih r
    · exact ih r

theorem annualStage_revenue_of_some (an : StmtTable) (r : TTMResult) (v : ℚ)
    (h : r.total_revenue_ttm = some v) :
    (annualStage an r).total_revenue_ttm = some v ∧
    (annualStage an r).revenue_source = r.revenue_source := by
  simp only [annualStage]
  split
  · have hpres := annualEbitdaGo_revenue an annualEbitdaKeys r
    rw [if_neg (by rw [hpres.1, h]; exact fun hc => Option.noConfusion hc)]
    exact ⟨hpres.1.trans h, hpres.2⟩
  · exact ⟨h, rfl⟩

theorem m3Ebitda_revenue (info : Info) (r r3 : TTMResult) (h : m3Ebitda info r = .ok r3) :
    r3.total_revenue_ttm = r.total_revenue_ttm ∧ r3.revenue_source = r.revenue_source := by
  simp only [m3Ebitda] at h
  split at h
  · split at h
    · split at h
      · rw [Except.ok.injEq] at h
        subst h
        exact ⟨rfl, rfl⟩
      · exact Except.noConfusion h
    · rw [Except.ok.injEq] at h
      subst h
      exact ⟨rfl, rfl⟩
  · rw [Except.ok.injEq] at h
    subst h
    exact ⟨rfl, rfl⟩

theorem m3Ebitda_of_some (info : Info) (r : TTMResult) (v : ℚ) (h : r.ebitda_ttm = some v) :
    m3Ebitda info r = .ok r := by
  simp only [m3Ebitda]
  rw [if_neg (by rw [h]; exact fun hc => Option.noConfusion hc)]

theorem m3Revenue_of_some (info : Info) (r : TTMResult) (v : ℚ)
    (h : r.total_revenue_ttm = some v) : m3Revenue info r = .ok r := by
  simp only [m3Revenue]
  rw [if_neg (by rw [h]; exact fun hc => Option.noConfusion hc)]

theorem m3Revenue_of_falsy (info : Info) (r : TTMResult)
    (h : yvTruthy (info "totalRevenue") = false) : m3Revenue info r = .ok r := by
  simp only [m3Revenue]
  split
  · rw [if_neg (by rw [h]; simp)]
  · rfl

theorem m3Revenue_ebitda (info : Info) (r r3 : TTMResult) (h : m3Revenue info r = .ok r3) :
    r3.ebitda_ttm = r.ebitda_ttm ∧ r3.ebitda_source = r.ebitda_source ∧
    r3.data_quality_issues = r.data_quality_issues := by
  simp only [m3Revenue] at h
  split at h
  · split at h
    · split at h
      · rw [Except.ok.injEq] at h
        subst h
        exact ⟨rfl, rfl, rfl⟩
      · exact Except.noConfusion h
    · rw [Except.ok.injEq] at h
      subst h
      exact ⟨rfl, rfl, rfl⟩
  · rw [Except.ok.injEq] at h
    subst h
    exact ⟨rfl, rfl, rfl⟩

theorem quarterlyEbitdaGo_find (qt : StmtTable) (keys : List String) (r : TTMResult)
    (k : String) (hfind : keys.find? (fun key => qt.rows.contains key) = some k) :
    ((firstFour qt k).length ≥ 4 →
      quarterlyEbitdaGo qt keys r =
        { r with
          ebitda_ttm := some (firstFour qt k).sum
          ebitda_latest := qt.cell k (qt.cols.headD 0)
          ebitda_source := some ("quarterly_ttm." ++ k)
          ebitda_period := some ("TTM_ending_" ++ toString (qt.cols.headD 0))
          data_timestamp := some (qt.cols.headD 0) }) ∧
    ((firstFour qt k).length < 4 → (firstFour qt k).length ≥ 2 →
      quarterlyEbitdaGo qt keys r =
        { r with
          ebitda_ttm := some ((firstFour qt k).sum / ((firstFour qt k).length : ℚ) * 4)
          ebitda_latest := qt.cell k (qt.cols.headD 0)
          ebitda_source := some ("quarterly_estimated." ++ k)
          ebitda_period := some ("TTM_estimated_" ++ toString (firstFour qt k).length ++ "Q")
          data_quality_issues := r.data_quality_issues ++ [estimIssue (firstFour qt k).length] }) := by
  induction keys generalizing r with
  | nil => exact absurd hfind (by simp)
  | cons key rest ih =>
    cases hE : qt.rows.contains key with
    | true =>
      rw [List.find?_cons_of_pos _ hE] at hfind
      have hkk : key = k := by injection hfind
      subst hkk
      constructor
      · intro h4
        simp only [quarterlyEbitdaGo]
        rw [if_pos hE, if_pos h4]
      · intro hlt h2
        simp only [quarterlyEbitdaGo]
        rw [if_pos hE, if_neg (by omega), if_pos h2]
    | false =>
      rw [List.find?_cons_of_neg _ (by rw [hE]; simp)] at hfind
      have goeq : quarterlyEbitdaGo qt (key :: rest) r = quarterlyEbitdaGo qt rest r := by
        simp only [quarterlyEbitdaGo]
        rw [if_neg (by rw [hE]; simp)]
      rw [goeq]
      exact ih r hfind

theorem quarterlyRevenueGo_find (qt : StmtTable) (keys : List String) (r : TTMResult)
    (k : String) (hfind : keys.find? (fun key => qt.rows.contains key) = some k)
    (httm : r.total_revenue_ttm = none) :
    (firstFour qt k).length ≥ 4 →
      quarterlyRevenueGo qt keys r =
        { r with
          total_revenue_ttm := some (firstFour qt k).sum
          total_revenue_latest := qt.cell k (qt.cols.headD 0)
          revenue_source := some ("quarterly_ttm." ++ k)
          revenue_period := some ("TTM_ending_" ++ toString (qt.cols.headD 0)) } := by
  induction keys generalizing r with
  | nil => exact absurd hfind (by simp)
  | cons key rest ih =>
    cases hE : qt.rows.contains key with
    | true =>
      rw [List.find?_cons_of_pos _ hE] at hfind
      have hkk : key = k := by injection hfind
      subst hkk
      intro h4
      simp only [quarterlyRevenueGo]
      rw [if_pos ⟨hE, httm⟩, if_pos h4]
    | false =>
      rw [List.find?_cons_of_neg _ (by rw [hE]; simp)] at hfind
      have goeq : quarterlyRevenueGo qt (key :: rest) r = quarterlyRevenueGo qt rest r := by
        simp only [quarterlyRevenueGo]
        rw [if_neg (by rw [hE]; simp)]
      rw [goeq]
      exact ih r hfind httm

theorem contains_guard (qt : StmtTable) (k : String) (hE : qt.rows.contains k = true)
    (hc : qt.cols.length ≥ 4) : ¬ qt.isEmptyTable = true ∧ qt.cols.length ≥ 4 := by
  refine ⟨?_, hc⟩
  simp only [StmtTable.isEmptyTable, Bool.or_eq_true, List.isEmpty_iff]
  rintro (hrows | hcols)
  · rw [hrows] at hE
    simp at hE
  · rw [hcols] at hc
    simp at hc

/-- C6: from a quarterly table with at least four columns, for the first
EBITDA alias present in the index: four non-null recent cells give
ebitda_ttm equal to their sum with a source tag beginning quarterly_ttm;
two or three non-null cells give their average times four with a tag
beginning quarterly_estimated and an issue naming the quarter count. -/
theorem claim_C6_ebitda_ttm_aggregation (qt an : StmtTable) (info : Info) (k : String)
    (r : TTMResult)
    (hc : qt.cols.length ≥ 4)
    (hk : ebitdaKeys.find? (fun key => qt.rows.contains key) = some k)
    (hok : get_robust_financial_metrics qt an info = .ok r) :
    ((firstFour qt k).length = 4 →
      r.ebitda_ttm = some (firstFour qt k).sum ∧
      (∃ s, r.ebitda_source = some ("quarterly_ttm" ++ s))) ∧
    (((firstFour qt k).length = 2 ∨ (firstFour qt k).length = 3) →
      r.ebitda_ttm = some ((firstFour qt k).sum / ((firstFour qt k).length : ℚ) * 4) ∧
      (∃ s, r.ebitda_source = some ("quarterly_estimated" ++ s)) ∧
      estimIssue (firstFour qt k).length ∈ r.data_quality_issues) := by
  have hcont : qt.rows.contains k = true := List.find?_some hk
  have hguard := contains_guard qt k hcont hc
  have main : ∀ rE : TTMResult, quarterlyEbitdaGo qt ebitdaKeys {} = rE →
      (∃ v, rE.ebitda_ttm = some v) →
      r.ebitda_ttm = rE.ebitda_ttm ∧ r.ebitda_source = rE.ebitda_source ∧
      r.data_quality_issues = rE.data_quality_issues := by
    intro rE hrE hEsome
    obtain ⟨v, hv⟩ := hEsome
    have hq : quarterlyStage qt {} = quarterlyRevenueGo qt revenueKeys rE := by
      rw [quarterlyStage, if_pos hguard, hrE]
    have hpres := quarterlyRevenueGo_ebitda qt revenueKeys rE
    have h1ttm : (quarterlyRevenueGo qt revenueKeys rE).ebitda_ttm = some v := by
      rw [hpres.1, hv]
    simp only [get_robust_financial_metrics] at hok
    rw [hq, if_neg (by rw [h1ttm]; exact fun hcf => Option.noConfusion hcf),
      m3Ebitda_of_some info _ v h1ttm] at hok
    have hok2 : m3Revenue info (quarterlyRevenueGo qt revenueKeys rE) = .ok r := hok
    have hm3 := m3Revenue_ebitda info _ r hok2
    exact ⟨hm3.1.trans hpres.1, (hm3.2.1).trans hpres.2.1, (hm3.2.2).trans hpres.2.2⟩
  constructor
  · intro h4
    have hrE := (quarterlyEbitdaGo_find qt ebitdaKeys {} k hk).1 (by omega)
    have hm := main _ hrE ⟨(firstFour qt k).sum, rfl⟩
    refine ⟨hm.1, ⟨"." ++ k, ?_⟩⟩
    rw [hm.2.1]
    have hstr : "quarterly_ttm." ++ k = "quarterly_ttm" ++ ("." ++ k) := by
      rw [← String.append_assoc]
      congr 1
    rw [hstr]
  · intro h23
    have hlt : (firstFour qt k).length < 4 := by rcases h23 with h | h <;> omega
    have h2 : (firstFour qt k).length ≥ 2 := by rcases h23 with h | h <;> omega
    have hrE := (quarterlyEbitdaGo_find qt ebitdaKeys {} k hk).2 hlt h2
    have hm := main _ hrE ⟨_, rfl⟩
    refine ⟨hm.1, ⟨"." ++ k, ?_⟩, ?_⟩
    · rw [hm.2.1]
      have hstr : "quarterly_estimated." ++ k = "quarterly_estimated" ++ ("." ++ k) := by
        rw [← String.append_assoc]
        congr 1
      rw [hstr]
    · rw [hm.2.2]
      simp

/-- An empty statement table. -/
def emptyTable : StmtTable := ⟨[], [], fun _ _ => none⟩

/-- An info mapping with every key absent. -/
def noInfo : Info := fun _ => .vnone

/-- A quarterly table whose EBITDA row has four non-null recent cells
4, 3, 2, 1 (period ids double as cell values). -/
def qtC6 : StmtTable :=
  ⟨["EBITDA"], [4, 3, 2, 1], fun key c => if key = "EBITDA" then some (c : ℚ) else none⟩

/-- The record produced on the C6 witness input. -/
def rC6 : TTMResult := (get_robust_financial_metrics qtC6 emptyTable noInfo).toOption.getD {}

theorem claim_C6_ebitda_ttm_aggregation_witness :
    get_robust_financial_metrics qtC6 emptyTable noInfo = .ok rC6 ∧
    rC6.ebitda_ttm = some 10 ∧
    rC6.ebitda_source = some "quarterly_ttm.EBITDA" := by
  have hok : get_robust_financial_metrics qtC6 emptyTable noInfo = .ok rC6 := by rfl
  have h := claim_C6_ebitda_ttm_aggregation qtC6 emptyTable noInfo "EBITDA" rC6
    (by decide) (by decide) hok
  have h4 := h.1 (by decide)
  refine ⟨hok, ?_, by decide⟩
  rw [h4.1]
  decide

theorem pipeline_revenue_some (an : StmtTable) (info : Info) (r1 r : TTMResult) (v : ℚ)
    (h1 : r1.total_revenue_ttm = some v)
    (hok : (match m3Ebitda info (if r1.ebitda_ttm = none then annualStage an r1 else r1) with
            | .error e => .error e
            | .ok r3 => m3Revenue info r3) = Except.ok r) :
    r.total_revenue_ttm = some v ∧ r.revenue_source = r1.revenue_source := by
  have hr2 : (if r1.ebitda_ttm = none then annualStage an r1 else r1).total_revenue_ttm = some v ∧
      (if r1.ebitda_ttm = none then annualStage an r1 else r1).revenue_source =
        r1.revenue_source := by
    split
    · exact annualStage_revenue_of_some an r1 v h1
    · exact ⟨h1, rfl⟩
  cases hm3 : m3Ebitda info (if r1.ebitda_ttm = none then annualStage an r1 else r1) with
  | error e =>
    rw [hm3] at hok
    exact Except.noConfusion hok
  | ok r3 =>
    rw [hm3] at hok
    have hok2 : m3Revenue info r3 = .ok r := hok
    have hrev := m3Ebitda_revenue info _ r3 hm3
    have h3v : r3.total_revenue_ttm = some v := hrev.1.trans hr2.1
    rw [m3Revenue_of_some info r3 v h3v] at hok2
    have hr3 : r3 = r := by injection hok2
    subst hr3
    exact ⟨h3v, hrev.2.trans hr2.2⟩

/-- C2 (amended): revenue does not follow the EBITDA cascade in full.
The four-full-quarters tier works as for EBITDA (first conjunct), but
there is no 2-3 quarter estimate tier for revenue: when only two or
three recent cells are non-null (and the later annual and info-dict
tiers have nothing), revenue stays absent with no source and no
estimate (second conjunct). -/
theorem claim_C2_revenue_cascade (qt an : StmtTable) (info : Info) (k : String) (r : TTMResult)
    (hc : qt.cols.length ≥ 4)
    (hk : revenueKeys.find? (fun key => qt.rows.contains key) = some k)
    (hok : get_robust_financial_metrics qt an info = .ok r) :
    ((firstFour qt k).length = 4 →
      r.total_revenue_ttm = some (firstFour qt k).sum ∧
      (∃ s, r.revenue_source = some ("quarterly_ttm" ++ s))) ∧
    ((∀ k2 ∈ revenueKeys, qt.rows.contains k2 = true → k2 = k) →
      ((firstFour qt k).length = 2 ∨ (firstFour qt k).length = 3) →
      an.isEmptyTable = true →
      yvTruthy (info "totalRevenue") = false →
      r.total_revenue_ttm = none ∧ r.revenue_source = none) := by
  have hcont : qt.rows.contains k = true := List.find?_some hk
  have hguard := contains_guard qt k hcont hc
  have hpresE := quarterlyEbitdaGo_revenue qt ebitdaKeys {}
  constructor
  · intro h4
    have hr1 := quarterlyRevenueGo_find qt revenueKeys (quarterlyEbitdaGo qt ebitdaKeys {}) k hk
      hpresE.1 (by omega)
    have hq : quarterlyStage qt {} =
        { quarterlyEbitdaGo qt ebitdaKeys {} with
          total_revenue_ttm := some (firstFour qt k).sum
          total_revenue_latest := qt.cell k (qt.cols.headD 0)
          revenue_source := some ("quarterly_ttm." ++ k)
          revenue_period := some ("TTM_ending_" ++ toString (qt.cols.headD 0)) } := by
      rw [quarterlyStage, if_pos hguard]
      exact hr1
    simp only [get_robust_financial_metrics] at hok
    rw [hq] at hok
    have hp := pipeline_revenue_some an info _ r (firstFour qt k).sum rfl hok
    refine ⟨hp.1, ⟨"." ++ k, ?_⟩⟩
    rw [hp.2]
    have hstr : "quarterly_ttm." ++ k = "quarterly_ttm" ++ ("." ++ k) := by
      rw [← String.append_assoc]
      congr 1
    rw [hstr]
  · intro honly h23 hanempty hfalsy
    have hall : ∀ key ∈ revenueKeys, qt.rows.contains key = true →
        (firstFour qt key).length < 4 := by
      intro key hmem hcont2
      have hkeq : key = k := honly key hmem hcont2
      subst hkeq
      rcases h23 with h | h <;> omega
    have hno4 := quarterlyRevenueGo_no4 qt revenueKeys (quarterlyEbitdaGo qt ebitdaKeys {}) hall
    have h1ttm : (quarterlyStage qt {}).total_revenue_ttm = none := by
      rw [quarterlyStage, if_pos hguard]
      exact hno4.1.trans hpresE.1
    have h1src : (quarterlyStage qt {}).revenue_source = none := by
      rw [quarterlyStage, if_pos hguard]
      exact hno4.2.trans hpresE.2
    simp only [get_robust_financial_metrics] at hok
    have hr2 : (if (quarterlyStage qt {}).ebitda_ttm = none
          then annualStage an (quarterlyStage qt {}) else quarterlyStage qt {}).total_revenue_ttm
            = none ∧
        (if (quarterlyStage qt {}).ebitda_ttm = none
          then annualStage an (quarterlyStage qt {}) else quarterlyStage qt {}).revenue_source
            = none := by
      split
      · rw [annualStage, if_neg (by rw [hanempty]; simp)]
        exact ⟨h1ttm, h1src⟩
      · exact ⟨h1ttm, h1src⟩
    cases hm3 : m3Ebitda info (if (quarterlyStage qt {}).ebitda_ttm = none
        then annualStage an (quarterlyStage qt {}) else quarterlyStage qt {}) with
    | error e =>
      rw [hm3] at hok
      exact Except.noConfusion hok
    | ok r3 =>
      rw [hm3] at hok
      have hok2 : m3Revenue info r3 = .ok r := hok
      have hrev := m3Ebitda_revenue info _ r3 hm3
      have h3ttm : r3.total_revenue_ttm = none := hrev.1.trans hr2.1
      have h3src : r3.revenue_source = none := hrev.2.trans hr2.2
      rw [m3Revenue_of_falsy info r3 hfalsy] at hok2
      have hr3 : r3 = r := by injection hok2
      subst hr3
      exact ⟨h3ttm, h3src⟩

/-- A quarterly table whose Total Revenue row has only three non-null
cells among the four most recent columns. -/
def qtC2 : StmtTable :=
  ⟨["Total Revenue"], [4, 3, 2, 1],
   fun key c => if key = "Total Revenue" ∧ c ≥ 2 then some 100 else none⟩

/-- The record produced on the C2 counterexample input. -/
def rC2 : TTMResult := (get_robust_financial_metrics qtC2 emptyTable noInfo).toOption.getD {}

/-- C2: the claim as stated is false.  qtC2 has exactly 3 of the most
recent 4 quarterly revenue cells non-null (averaging 100), yet
extraction leaves revenue absent with no source tag, instead of the
claimed estimate 100 × 4 = 400 with tag quarterly_estimated: the source
has no quarterly estimate tier for revenue. -/
theorem claim_C2_revenue_estimate_counterexample :
    (firstFour qtC2 "Total Revenue").length = 3 ∧
    get_robust_financial_metrics qtC2 emptyTable noInfo = .ok rC2 ∧
    rC2.total_revenue_ttm = none ∧ rC2.revenue_source = none ∧
    rC2.total_revenue_ttm ≠
      some ((firstFour qtC2 "Total Revenue").sum / ((firstFour qtC2 "Total Revenue").length : ℚ)
        * 4) := by
  exact ⟨by decide, by rfl, by rfl, by rfl, by decide⟩

/-- A quarterly table whose Total Revenue row has four non-null recent
cells 4, 3, 2, 1. -/
def qtC2w : StmtTable :=
  ⟨["Total Revenue"], [4, 3, 2, 1],
   fun key c => if key = "Total Revenue" then some (c : ℚ) else none⟩

/-- The record produced on the four-full-quarters revenue input. -/
def rC2w : TTMResult := (get_robust_financial_metrics qtC2w emptyTable noInfo).toOption.getD {}

theorem claim_C2_revenue_cascade_witness :
    get_robust_financial_metrics qtC2w emptyTable noInfo = .ok rC2w ∧
    rC2w.total_revenue_ttm = some 10 ∧
    get_robust_financial_metrics qtC2 emptyTable noInfo = .ok rC2 ∧
    rC2.total_revenue_ttm = none ∧ rC2.revenue_source = none := by
  have hok1 : get_robust_financial_metrics qtC2w emptyTable noInfo = .ok rC2w := by rfl
  have h1 := (claim_C2_revenue_cascade qtC2w emptyTable noInfo "Total Revenue" rC2w
    (by decide) (by decide) hok1).1 (by decide)
  have hok2 : get_robust_financial_metrics qtC2 emptyTable noInfo = .ok rC2 := by rfl
  have h2 := (claim_C2_revenue_cascade qtC2 emptyTable noInfo "Total Revenue" rC2
    (by decide) (by decide) hok2).2 (by decide) (by decide) (by decide) (by decide)
  refine ⟨hok1, ?_, hok2, h2.1, h2.2⟩
  rw [h1.1]
  decide

/-- Issue string for a reported enterprise value above ten times market
cap (numeric rendering simplified to exact rationals). -/
def evHighIssue (ev mc : ℚ) : String :=
  "Enterprise Value seems too high: " ++ toString ev ++ " vs Market Cap: " ++ toString mc

/-- Issue string for a reported enterprise value below half market cap. -/
def evLowIssue (ev mc : ℚ) : String :=
  "Enterprise Value seems too low: " ++ toString ev ++ " vs Market Cap: " ++ toString mc

/-- Issue string for a >20 percent reported/computed discrepancy. -/
def evDiscIssue (diffPct : ℚ) : String :=
  "EV calculation discrepancy: " ++ toString diffPct ++ "% difference"

/-- The manual-calculation tail of _calculate_enterprise_value, shared by
the absent-reported-value path and the flagged out-of-band paths; acc
holds the issues accumulated before it runs, ev the reported value (for
the discrepancy check and as a last-resort return).  The discrepancy
step divides by the reported value, so a reported enterprise value of
0.0 (reachable, since the info string "0" passes safe extraction)
raises ZeroDivisionError in the source; that raise is modelled as the
error case. -/
def evManualBranch (info : Info) (ev : Option ℚ) (acc : List String) :
    Except String (Option ℚ × List String) :=
  let mc := safe_extract info "marketCap"
  let dbt := safe_extract info "totalDebt"
  let csh := safe_extract info "totalCash"
  let acc2 := acc ++ mc.2 ++ dbt.2 ++ csh.2
  if pytruthy mc.1 = true ∧ mc.1.getD 0 > 0 then
    let calculated_ev := mc.1.getD 0 + dbt.1.getD 0 - csh.1.getD 0
    if calculated_ev > 0 then
      match ev with
      | some e =>
        if e = 0 then .error "ZeroDivisionError: float division by zero"
        else if |calculated_ev - e| / e * 100 > 20 then
          .ok (some calculated_ev, acc2 ++ [evDiscIssue (|calculated_ev - e| / e * 100)])
        else .ok (some calculated_ev, acc2)
      | none => .ok (some calculated_ev, acc2)
    else .ok (ev, acc2)
  else .ok (ev, acc2)

/-- _calculate_enterprise_value: the reported value is returned only when
it passes the band check against market cap (or when the manual
computation fails); an out-of-band reported value is flagged and the
manual market cap + debt - cash value is preferred when computable.
The error case propagates the ZeroDivisionError of the manual branch. -/
def calculate_enterprise_value (info : Info) : Except String (Option ℚ × List String) :=
  let evr := safe_extract info "enterpriseValue"
  match evr.1 with
  | some e =>
    let mcr := safe_extract info "marketCap"
    let acc := evr.2 ++ mcr.2
    if pytruthy mcr.1 = true ∧ e > mcr.1.getD 0 * 10 then
      evManualBranch info (some e) (acc ++ [evHighIssue e (mcr.1.getD 0)])
    else if pytruthy mcr.1 = true ∧ e < mcr.1.getD 0 * (1 / 2) then
      evManualBranch info (some e) (acc ++ [evLowIssue e (mcr.1.getD 0)])
    else .ok (some e, acc)
  | none => evManualBranch info none evr.2

/-- _get_trailing_pe: the reported value wins; the fallback computes
currentPrice / trailingEps only when the EPS is strictly positive.  The
or-chain on the two price fields short-circuits, so the second
extraction and its issues happen only when the first result is falsy. -/
def get_trailing_pe (info : Info) : Option ℚ × List String :=
  let pe := safe_extract info "trailingPE"
  match pe.1 with
  | some p => (some p, pe.2)
  | none =>
    let cp := safe_extract info "currentPrice"
    let cur : Option ℚ × List String :=
      if pytruthy cp.1 = true then (cp.1, pe.2 ++ cp.2)
      else
        let rmp := safe_extract info "regularMarketPrice"
        (rmp.1, pe.2 ++ cp.2 ++ rmp.2)
    let eps := safe_extract info "trailingEps"
    if pytruthy cur.1 = true ∧ pytruthy eps.1 = true ∧ eps.1.getD 0 > 0 then
      (some (cur.1.getD 0 / eps.1.getD 0), cur.2 ++ eps.2)
    else (none, cur.2 ++ eps.2)

def fallbackIssue : String :=
  "Using yfinance EV/EBITDA (our TTM calculation failed)"

/-- The second definition of _get_ev_ebitda_with_ttm, the one in effect
(a later method of the same name replaces the earlier one in the class
body).  It carries no range sanity check on the computed ratio.  An
exception raised inside the enterprise value calculation propagates. -/
def get_ev_ebitda_with_ttm (info : Info) (ebitda_ttm : Option ℚ) :
    Except String (Option ℚ × List String) :=
  match calculate_enterprise_value info with
  | .error e => .error e
  | .ok evr =>
    if pytruthy evr.1 = true ∧ pytruthy ebitda_ttm = true ∧ ebitda_ttm.getD 0 > 0 then
      .ok (some (evr.1.getD 0 / ebitda_ttm.getD 0), evr.2)
    else
      let yf := safe_extract info "enterpriseToEbitda"
      .ok (yf.1, evr.2 ++ yf.2 ++ (if pytruthy yf.1 = true then [fallbackIssue] else []))

def unusualRatioIssue (ratioVal : ℚ) : String :=
  "EV/EBITDA ratio seems unusual: " ++ toString ratioVal

def fallbackIssueNormalized : String :=
  "Using yfinance EV/EBITDA (our currency-normalized calculation failed)"

/-- The first definition of _get_ev_ebitda_with_ttm: dead code, shadowed
by the later method of the same name.  This is the variant carrying the
[1, 100] range sanity check that the specification describes. -/
def get_ev_ebitda_with_ttm_shadowed (info : Info) (ebitda_ttm : Option ℚ) :
    Except String (Option ℚ × List String) :=
  match calculate_enterprise_value info with
  | .error e => .error e
  | .ok evr =>
    if pytruthy evr.1 = true ∧ pytruthy ebitda_ttm = true ∧ ebitda_ttm.getD 0 > 0 then
      let ev_ebitda := evr.1.getD 0 / ebitda_ttm.getD 0
      if ev_ebitda < 1 ∨ ev_ebitda > 100 then
        .ok (some ev_ebitda, evr.2 ++ [unusualRatioIssue ev_ebitda])
      else .ok (some ev_ebitda, evr.2)
    else
      let yf := safe_extract info "enterpriseToEbitda"
      .ok (yf.1, evr.2 ++ yf.2 ++
        (if pytruthy yf.1 = true then [fallbackIssueNormalized] else []))

/-- The metric fields checked by _validate_metrics. -/
structure MetricsBundle where
  trailing_pe : Option ℚ := none
  forward_pe : Option ℚ := none
  peg_ratio : Option ℚ := none
  price_to_book : Option ℚ := none
  price_to_sales : Option ℚ := none
  ev_revenue : Option ℚ := none
  ev_ebitda : Option ℚ := none

/-- The rule table of _validate_metrics, in iteration order. -/
def validationRules : List (String × ℚ × ℚ) :=
  [("trailing_pe", 0, 1000), ("forward_pe", 0, 1000), ("peg_ratio", 0, 10),
   ("price_to_book", 0, 100), ("price_to_sales", 0, 200),
   ("ev_revenue", 0, 500), ("ev_ebitda", 0, 1000)]

def getMetric (m : MetricsBundle) : String → Option ℚ
  | "trailing_pe" => m.trailing_pe
  | "forward_pe" => m.forward_pe
  | "peg_ratio" => MetricsBundle.peg_ratio m
  | "price_to_book" => m.price_to_book
  | "price_to_sales" => m.price_to_sales
  | "ev_revenue" => m.ev_revenue
  | "ev_ebitda" => m.ev_ebitda
  | _ => none

def rangeIssue (name : String) (v : ℚ) : String :=
  name ++ " outside normal range: " ++ toString v

/-- Whether one rule fires on a bundle. -/
def ruleViolated (m : MetricsBundle) (rule : String × ℚ × ℚ) : Bool :=
  match getMetric m rule.1 with
  | some v => decide (v < rule.2.1 ∨ v > rule.2.2)
  | none => false

/-- One iteration of the validation loop. -/
def validateStep (m : MetricsBundle) (acc : List String) (rule : String × ℚ × ℚ) :
    List String :=
  match getMetric m rule.1 with
  | some v =>
    if v < rule.2.1 ∨ v > rule.2.2 then acc ++ [rangeIssue rule.1 v] else acc
  | none => acc

/-- _validate_metrics: appends one issue per non-null out-of-range
metric, iterating the rule table in order; it only appends to the issue
list and leaves every metric value untouched. -/
def validate_metrics (m : MetricsBundle) : List String :=
  validationRules.foldl (validateStep m) []

theorem validateStep_eq_none (m : MetricsBundle) (acc : List String)
    (rule : String × ℚ × ℚ) (hv : getMetric m rule.1 = none) :
    validateStep m acc rule = acc := by
  simp [validateStep, hv]

theorem validateStep_eq_viol (m : MetricsBundle) (acc : List String) (rule : String × ℚ × ℚ)
    (v : ℚ) (hv : getMetric m rule.1 = some v) (hviol : v < rule.2.1 ∨ v > rule.2.2) :
    validateStep m acc rule = acc ++ [rangeIssue rule.1 v] := by
  simp [validateStep, hv, hviol]

theorem validateStep_eq_ok (m : MetricsBundle) (acc : List String) (rule : String × ℚ × ℚ)
    (v : ℚ) (hv : getMetric m rule.1 = some v) (hok : ¬ (v < rule.2.1 ∨ v > rule.2.2)) :
    validateStep m acc rule = acc := by
  simp [validateStep, hv, hok]

theorem foldl_validateStep_length (m : MetricsBundle) (rules : List (String × ℚ × ℚ)) :
    ∀ acc : List String,
      (rules.foldl (validateStep m) acc).length = acc.length + rules.countP (ruleViolated m) := by
  induction rules with
  | nil => intro acc; simp
  | cons rule rest ih =>
    intro acc
    simp only [List.foldl_cons, List.countP_cons]
    have hstep : (validateStep m acc rule).length =
        acc.length + (if ruleViolated m rule = true then 1 else 0) := by
      cases hv : getMetric m rule.1 with
      | none => simp [validateStep_eq_none m acc rule hv, ruleViolated, hv]
      | some v =>
        by_cases hviol : v < rule.2.1 ∨ v > rule.2.2
        · simp [validateStep_eq_viol m acc rule v hv hviol, ruleViolated, hv, hviol]
        · simp [validateStep_eq_ok m acc rule v hv hviol, ruleViolated, hv, hviol]
    rw [ih (validateStep m acc rule), hstep]
    omega

theorem foldl_validateStep_mono (m : MetricsBundle) (rules : List (String × ℚ × ℚ))
    (x : String) : ∀ acc : List String, x ∈ acc → x ∈ rules.foldl (validateStep m) acc := by
  induction rules with
  | nil => intro acc h; simpa using h
  | cons rule rest ih =>
    intro acc h
    simp only [List.foldl_cons]
    apply ih
    cases hv : getMetric m rule.1 with
    | none => rw [validateStep_eq_none m acc rule hv]; exact h
    | some v =>
      by_cases hviol : v < rule.2.1 ∨ v > rule.2.2
      · rw [validateStep_eq_viol m acc rule v hv hviol]
        exact List.mem_append_left _ h
      · rw [validateStep_eq_ok m acc rule v hv hviol]
        exact h

theorem foldl_validateStep_mem (m : MetricsBundle) (rules : List (String × ℚ × ℚ))
    (rule : String × ℚ × ℚ) (hr : rule ∈ rules) (v : ℚ) (hv : getMetric m rule.1 = some v)
    (hviol : v < rule.2.1 ∨ v > rule.2.2) :
    ∀ acc : List String, rangeIssue rule.1 v ∈ rules.foldl (validateStep m) acc := by
  induction rules with
  | nil => exact absurd hr (by simp)
  | cons a rest ih =>
    intro acc
    simp only [List.foldl_cons]
    rcases List.mem_cons.mp hr with heq | hmem
    · subst heq
      apply foldl_validateStep_mono
      rw [validateStep_eq_viol m acc rule v hv hviol]
      exact List.mem_append_right _ (by simp)
    · exact ih hmem (validateStep m acc a)

/-- A bundle whose trailing P/E is -500: inside the claimed range
[-1000, 1000], yet flagged by the code, whose actual rule table uses
[0, 1000] for trailing P/E (and [0, 1000], not [-100, 1000], for
EV/EBITDA). -/
def mC5 : MetricsBundle := { trailing_pe := some (-500) }

/-- C5: the claim as stated is false.  The value -500 lies inside the
claimed trailing P/E range [-1000, 1000], so under the claim validation
would append nothing, but the range table of the code has (0, 1000) for
trailing P/E and flags it; likewise the actual EV/EBITDA range is
(0, 1000), not [-100, 1000] (third conjunct: -50 is flagged though the
claimed range would accept it). -/
theorem claim_C5_validate_counterexample :
    ((-1000 : ℚ) ≤ -500 ∧ (-500 : ℚ) ≤ 1000) ∧
    validate_metrics mC5 = [rangeIssue "trailing_pe" (-500)] ∧
    ((-100 : ℚ) ≤ -50 ∧ (-50 : ℚ) ≤ 1000) ∧
    validate_metrics { ev_ebitda := some (-50) } = [rangeIssue "ev_ebitda" (-50)] := by
  exact ⟨by norm_num, by decide, by norm_num, by decide⟩

/-- C5 (amended): validation checks each metric against the fixed table
whose ranges all have minimum 0 — trailing P/E in [0, 1000] and
EV/EBITDA in [0, 1000] — appending exactly one issue per non-null
out-of-range value (the issue count equals the violation count, and
the issue string of each violation is present); the function only returns
issue strings, leaving every metric value untouched. -/
theorem claim_C5_validate_ranges (m : MetricsBundle) :
    ("trailing_pe", (0 : ℚ), (1000 : ℚ)) ∈ validationRules ∧
    ("ev_ebitda", (0 : ℚ), (1000 : ℚ)) ∈ validationRules ∧
    (validate_metrics m).length = validationRules.countP (ruleViolated m) ∧
    (∀ rule ∈ validationRules, ∀ v : ℚ, getMetric m rule.1 = some v →
      (v < rule.2.1 ∨ v > rule.2.2) → rangeIssue rule.1 v ∈ validate_metrics m) := by
  refine ⟨by decide, by decide, ?_, ?_⟩
  · have h := foldl_validateStep_length m validationRules []
    simpa [validate_metrics] using h
  · intro rule hr v hv hviol
    exact foldl_validateStep_mem m validationRules rule hr v hv hviol []

theorem claim_C5_validate_ranges_witness :
    (validate_metrics { trailing_pe := some 2000 }).length = 1 ∧
    rangeIssue "trailing_pe" 2000 ∈ validate_metrics { trailing_pe := some 2000 } := by
  have h := claim_C5_validate_ranges { trailing_pe := some 2000 }
  constructor
  · rw [h.2.2.1]
    decide
  · exact h.2.2.2 ("trailing_pe", 0, 1000) (by decide) 2000 (by decide) (by norm_num)

/-- C7: safe extraction is a total function by construction (the source
catches every coercion failure), and on each input class it behaves as
specified: the sentinel values None, "", "N/A", "None", "null" and the
number 0 yield absence with no issue; IEEE infinities yield absence
(silently); a negative number under a structurally non-negative key
yields absence plus an issue; a string that does not parse as a number
yields absence plus a parse-failure issue. -/
theorem claim_C7_safe_extract_total (info : Info) (key : String) :
    (info key = .vnone → safe_extract info key = (none, [])) ∧
    (info key = .vstr "" → safe_extract info key = (none, [])) ∧
    (info key = .vstr "N/A" → safe_extract info key = (none, [])) ∧
    (info key = .vstr "None" → safe_extract info key = (none, [])) ∧
    (info key = .vstr "null" → safe_extract info key = (none, [])) ∧
    (info key = .vnum 0 → safe_extract info key = (none, [])) ∧
    (info key = .vinf → safe_extract info key = (none, [])) ∧
    (info key = .vninf → safe_extract info key = (none, [])) ∧
    (∀ q : ℚ, info key = .vnum q → q < 0 → key ∈ negativeInvalidKeys →
      safe_extract info key = (none, [negIssue key q])) ∧
    (∀ s : String, info key = .vstr s → isSentinel (.vstr s) = false → parseFloat? s = none →
      safe_extract info key = (none, [parseIssue key])) := by
  refine ⟨?_, ?_, ?_, ?_, ?_, ?_, ?_, ?_, ?_, ?_⟩
  · intro h; simp [safe_extract, h, isSentinel]
  · intro h; simp [safe_extract, h, isSentinel]
  · intro h; simp [safe_extract, h, isSentinel]
  · intro h; simp [safe_extract, h, isSentinel]
  · intro h; simp [safe_extract, h, isSentinel]
  · intro h; simp [safe_extract, h, isSentinel]
  · intro h; simp [safe_extract, h, isSentinel, tryFloat]
  · intro h; simp [safe_extract, h, isSentinel, tryFloat]
  · intro q h hneg hkey
    have hq0 : ¬ q = 0 := by intro h0; rw [h0] at hneg; exact absurd hneg (by norm_num)
    simp [safe_extract, h, isSentinel, tryFloat, hq0, hkey, hneg]
  · intro s h hsent hparse
    simp [safe_extract, h, hsent, tryFloat, hparse]

/-- An info mapping with a negative market cap and an unparsable
enterprise value string. -/
def infoC7 : Info := fun k =>
  if k = "marketCap" then .vnum (-5)
  else if k = "enterpriseValue" then .vstr "abc"
  else .vnone

theorem claim_C7_safe_extract_total_witness :
    safe_extract infoC7 "marketCap" = (none, [negIssue "marketCap" (-5)]) ∧
    safe_extract infoC7 "enterpriseValue" = (none, [parseIssue "enterpriseValue"]) ∧
    safe_extract infoC7 "trailingPE" = (none, []) := by
  refine ⟨?_, ?_, ?_⟩
  · exact (claim_C7_safe_extract_total infoC7 "marketCap").2.2.2.2.2.2.2.2.1 (-5)
      (by decide) (by norm_num) (by decide)
  · exact (claim_C7_safe_extract_total infoC7 "enterpriseValue").2.2.2.2.2.2.2.2.2 "abc"
      (by decide) (by decide) (by decide)
  · exact (claim_C7_safe_extract_total infoC7 "trailingPE").1 (by decide)

/-- The characterization of the manual-calculation tail of the
enterprise value reconciler, under a present positive market cap, a
positive computed value and a nonzero reported value (when present):
the computed value wins, the issues accumulated before the branch are
kept, and a >20 percent discrepancy against the reported value is
flagged. -/
theorem evManualBranch_spec (info : Info) (ev : Option ℚ) (acc : List String) (mc : ℚ)
    (hm : (safe_extract info "marketCap").1 = some mc) (hmpos : 0 < mc)
    (hcalc : 0 < mc + (safe_extract info "totalDebt").1.getD 0 -
      (safe_extract info "totalCash").1.getD 0)
    (hnz : ∀ e : ℚ, ev = some e → e ≠ 0) :
    ∃ res : Option ℚ × List String,
      evManualBranch info ev acc = .ok res ∧
      res.1 = some (mc + (safe_extract info "totalDebt").1.getD 0 -
        (safe_extract info "totalCash").1.getD 0) ∧
      (∀ x ∈ acc, x ∈ res.2) ∧
      (∀ e : ℚ, ev = some e →
        |mc + (safe_extract info "totalDebt").1.getD 0 -
          (safe_extract info "totalCash").1.getD 0 - e| / e * 100 > 20 →
        evDiscIssue (|mc + (safe_extract info "totalDebt").1.getD 0 -
          (safe_extract info "totalCash").1.getD 0 - e| / e * 100) ∈ res.2) := by
  have hmc0 : pytruthy (safe_extract info "marketCap").1 = true := by
    rw [hm]
    simp [pytruthy]
    intro h0
    rw [h0] at hmpos
    exact absurd hmpos (by norm_num)
  have hgd : (safe_extract info "marketCap").1.getD 0 = mc := by rw [hm]; rfl
  simp only [evManualBranch]
  rw [hgd, if_pos ⟨hmc0, hmpos⟩, if_pos hcalc]
  cases ev with
  | none =>
    dsimp only
    refine ⟨_, rfl, rfl, ?_, ?_⟩
    · intro x hx
      simp [hx]
    · intro e he
      exact absurd he (by simp)
  | some e =>
    dsimp only
    rw [if_neg (hnz e rfl)]
    by_cases hdisc : |mc + (safe_extract info "totalDebt").1.getD 0 -
        (safe_extract info "totalCash").1.getD 0 - e| / e * 100 > 20
    · rw [if_pos hdisc]
      refine ⟨_, rfl, rfl, ?_, ?_⟩
      · intro x hx
        simp [hx]
      · intro e2 he2 hgt
        have he2e : e2 = e := by injection he2 with hv; exact hv.symm
        subst he2e
        simp
    · rw [if_neg hdisc]
      refine ⟨_, rfl, rfl, ?_, ?_⟩
      · intro x hx
        simp [hx]
      · intro e2 he2 hgt
        have he2e : e2 = e := by injection he2 with hv; exact hv.symm
        subst he2e
        exact absurd hgt hdisc

/-- The manual branch raises ZeroDivisionError when the reported value
is 0.0 and the discrepancy division is reached. -/
theorem evManualBranch_zero (info : Info) (acc : List String) (mc : ℚ)
    (hm : (safe_extract info "marketCap").1 = some mc) (hmpos : 0 < mc)
    (hcalc : 0 < mc + (safe_extract info "totalDebt").1.getD 0 -
      (safe_extract info "totalCash").1.getD 0) :
    evManualBranch info (some 0) acc = .error "ZeroDivisionError: float division by zero" := by
  have hmc0 : pytruthy (safe_extract info "marketCap").1 = true := by
    rw [hm]
    simp [pytruthy]
    intro h0
    rw [h0] at hmpos
    exact absurd hmpos (by norm_num)
  have hgd : (safe_extract info "marketCap").1.getD 0 = mc := by rw [hm]; rfl
  simp only [evManualBranch]
  rw [hgd, if_pos ⟨hmc0, hmpos⟩, if_pos hcalc]
  simp only [if_true]

/-- C1 (amended): when the reported enterprise value is out of band
against a positive market cap and the manual value is computable, the
reported value is flagged, but the returned value is the computed
marketCap + totalDebt - totalCash, not the reported one; a >20 percent
discrepancy between the two is additionally recorded.  The reported
value is returned only when its band check passes or the manual
computation fails.  One exception: a reported value of exactly 0.0
(which trips the low-band check) makes the discrepancy division raise
ZeroDivisionError, so the function raises instead of returning. -/
theorem claim_C1_enterprise_value (info : Info) (e mc : ℚ)
    (he : (safe_extract info "enterpriseValue").1 = some e)
    (hm : (safe_extract info "marketCap").1 = some mc)
    (hmpos : 0 < mc)
    (hoob : e > mc * 10 ∨ e < mc * (1 / 2))
    (hcalc : 0 < mc + (safe_extract info "totalDebt").1.getD 0 -
      (safe_extract info "totalCash").1.getD 0) :
    (e ≠ 0 →
      ∃ res : Option ℚ × List String,
        calculate_enterprise_value info = .ok res ∧
        res.1 = some (mc + (safe_extract info "totalDebt").1.getD 0 -
          (safe_extract info "totalCash").1.getD 0) ∧
        (evHighIssue e mc ∈ res.2 ∨ evLowIssue e mc ∈ res.2) ∧
        (|mc + (safe_extract info "totalDebt").1.getD 0 -
            (safe_extract info "totalCash").1.getD 0 - e| / e * 100 > 20 →
          evDiscIssue (|mc + (safe_extract info "totalDebt").1.getD 0 -
            (safe_extract info "totalCash").1.getD 0 - e| / e * 100) ∈ res.2)) ∧
    (e = 0 →
      calculate_enterprise_value info = .error "ZeroDivisionError: float division by zero") := by
  have hmc0 : pytruthy (safe_extract info "marketCap").1 = true := by
    rw [hm]
    simp [pytruthy]
    intro h0
    rw [h0] at hmpos
    exact absurd hmpos (by norm_num)
  have hgd : (safe_extract info "marketCap").1.getD 0 = mc := by rw [hm]; rfl
  constructor
  · intro hne
    have hspec := fun acc => evManualBranch_spec info (some e) acc mc hm hmpos hcalc
      (fun e2 he2 => by injection he2 with hv; exact hv ▸ hne)
    simp only [calculate_enterprise_value]
    rw [he]
    dsimp only
    rw [hgd]
    by_cases hhi : pytruthy (safe_extract info "marketCap").1 = true ∧ e > mc * 10
    · rw [if_pos hhi]
      obtain ⟨res, hres, h1, h2, h3⟩ := hspec ((safe_extract info "enterpriseValue").2 ++
        (safe_extract info "marketCap").2 ++ [evHighIssue e mc])
      exact ⟨res, hres, h1, Or.inl (h2 _ (by simp)), fun hgt => h3 e rfl hgt⟩
    · rw [if_neg hhi]
      have hlo : e < mc * (1 / 2) := by
        rcases hoob with h | h
        · exact absurd ⟨hmc0, h⟩ hhi
        · exact h
      rw [if_pos ⟨hmc0, hlo⟩]
      obtain ⟨res, hres, h1, h2, h3⟩ := hspec ((safe_extract info "enterpriseValue").2 ++
        (safe_extract info "marketCap").2 ++ [evLowIssue e mc])
      exact ⟨res, hres, h1, Or.inr (h2 _ (by simp)), fun hgt => h3 e rfl hgt⟩
  · intro h0
    subst h0
    simp only [calculate_enterprise_value]
    rw [he]
    dsimp only
    rw [hgd]
    rw [if_neg (by rintro ⟨_, hgt⟩; nlinarith)]
    rw [if_pos ⟨hmc0, by nlinarith⟩]
    exact evManualBranch_zero info _ mc hm hmpos hcalc

/-- An info mapping with a reported enterprise value twenty times the
market cap. -/
def infoC1 : Info := fun k =>
  if k = "enterpriseValue" then .vnum 2000
  else if k = "marketCap" then .vnum 100
  else if k = "totalDebt" then .vnum 50
  else if k = "totalCash" then .vnum 10
  else .vnone

/-- The same info mapping except the reported enterprise value is the
string "0", which safe extraction accepts as the float 0.0. -/
def infoC1z : Info := fun k =>
  if k = "enterpriseValue" then .vstr "0"
  else if k = "marketCap" then .vnum 100
  else if k = "totalDebt" then .vnum 50
  else if k = "totalCash" then .vnum 10
  else .vnone

/-- C1: the claim as stated is false.  With reported EV 2000 and market
cap 100 the reported value is out of band (2000 > 10 × 100) and is
flagged, but the value returned is the computed 100 + 50 - 10 = 140,
not the reported 2000 which the claim says is "still used" and "the one
returned". -/
theorem claim_C1_ev_counterexample :
    (2000 : ℚ) > 100 * 10 ∧
    (safe_extract infoC1 "enterpriseValue").1 = some 2000 ∧
    (safe_extract infoC1 "marketCap").1 = some 100 ∧
    calculate_enterprise_value infoC1 =
      .ok (some 140, [evHighIssue 2000 100, evDiscIssue 93]) ∧
    some (140 : ℚ) ≠ some 2000 := by
  refine ⟨by norm_num, by decide, by decide, by rfl, by decide⟩

theorem claim_C1_enterprise_value_witness :
    ((calculate_enterprise_value infoC1).toOption.getD (none, [])).1 = some 140 ∧
    (evHighIssue 2000 100 ∈ ((calculate_enterprise_value infoC1).toOption.getD (none, [])).2 ∨
     evLowIssue 2000 100 ∈ ((calculate_enterprise_value infoC1).toOption.getD (none, [])).2) ∧
    evDiscIssue 93 ∈ ((calculate_enterprise_value infoC1).toOption.getD (none, [])).2 ∧
    calculate_enterprise_value infoC1z =
      .error "ZeroDivisionError: float division by zero" := by
  have h := claim_C1_enterprise_value infoC1 2000 100 (by decide) (by decide) (by norm_num)
    (Or.inl (by norm_num)) (by decide)
  obtain ⟨res, hres, h1, h2, h3⟩ := h.1 (by norm_num)
  have hz := claim_C1_enterprise_value infoC1z 0 100 (by decide) (by decide) (by norm_num)
    (Or.inr (by norm_num)) (by decide)
  have hget : (calculate_enterprise_value infoC1).toOption.getD (none, []) = res := by
    rw [hres]
    rfl
  rw [hget]
  refine ⟨?_, h2, ?_, hz.2 rfl⟩
  · rw [h1]
    decide
  · have hd := h3 (by decide)
    have harg : |100 + (safe_extract infoC1 "totalDebt").1.getD 0 -
        (safe_extract infoC1 "totalCash").1.getD 0 - 2000| / 2000 * 100 = (93 : ℚ) := by decide
    rw [harg] at hd
    exact hd

/-- C3 (amended): when no reported trailing P/E exists, the fallback
computes currentPrice / trailingEPS only when the trailing EPS is
strictly positive; for a present negative trailing EPS the result is
absent — negative computed P/E values are discarded, not returned. -/
theorem claim_C3_trailing_pe (info : Info)
    (hpe : (safe_extract info "trailingPE").1 = none) :
    (∀ e : ℚ, (safe_extract info "trailingEps").1 = some e → e < 0 →
      (get_trailing_pe info).1 = none) ∧
    (∀ c e : ℚ, (safe_extract info "currentPrice").1 = some c → ¬ c = 0 →
      (safe_extract info "trailingEps").1 = some e → 0 < e →
      (get_trailing_pe info).1 = some (c / e)) := by
  constructor
  · intro e heps hneg
    simp only [get_trailing_pe]
    rw [hpe]
    have hcond : ¬ (pytruthy (if pytruthy (safe_extract info "currentPrice").1 = true
          then ((safe_extract info "currentPrice").1,
            (safe_extract info "trailingPE").2 ++ (safe_extract info "currentPrice").2)
          else ((safe_extract info "regularMarketPrice").1,
            (safe_extract info "trailingPE").2 ++ (safe_extract info "currentPrice").2 ++
              (safe_extract info "regularMarketPrice").2) : Option ℚ × List String).1 = true ∧
        pytruthy (safe_extract info "trailingEps").1 = true ∧
        (safe_extract info "trailingEps").1.getD 0 > 0) := by
      intro hcon
      have hgd : (safe_extract info "trailingEps").1.getD 0 = e := by rw [heps]; rfl
      rw [hgd] at hcon
      linarith [hcon.2.2]
    rw [if_neg hcond]
  · intro c e hc hc0 heps hpos
    simp only [get_trailing_pe]
    rw [hpe, hc]
    have hcur : pytruthy (some c) = true := by simp [pytruthy, hc0]
    rw [if_pos hcur]
    have heps0 : pytruthy (safe_extract info "trailingEps").1 = true := by
      rw [heps]
      simp [pytruthy]
      intro h0
      rw [h0] at hpos
      exact absurd hpos (by norm_num)
    have hgd : (safe_extract info "trailingEps").1.getD 0 = e := by rw [heps]; rfl
    rw [if_pos ⟨hcur, heps0, by rw [hgd]; exact hpos⟩, hgd]
    rfl

/-- An info mapping with no reported trailing P/E, a present current
price and a negative trailing EPS. -/
def infoC3 : Info := fun k =>
  if k = "currentPrice" then .vnum 100
  else if k = "trailingEps" then .vnum (-5)
  else .vnone

/-- C3: the claim as stated is false.  With current price 100 present
and trailing EPS -5 present and negative, the claim requires the
computed ratio -20 to be returned, but the fallback requires EPS > 0
and returns absent. -/
theorem claim_C3_trailing_pe_counterexample :
    (safe_extract infoC3 "trailingPE").1 = none ∧
    (safe_extract infoC3 "currentPrice").1 = some 100 ∧
    (safe_extract infoC3 "trailingEps").1 = some (-5) ∧
    (get_trailing_pe infoC3).1 = none ∧
    (get_trailing_pe infoC3).1 ≠ some (100 / (-5) : ℚ) := by
  refine ⟨by decide, by decide, by decide, by decide, by decide⟩

/-- An info mapping with no reported trailing P/E, current price 100 and
trailing EPS 5. -/
def infoC3w : Info := fun k =>
  if k = "currentPrice" then .vnum 100
  else if k = "trailingEps" then .vnum 5
  else .vnone

theorem claim_C3_trailing_pe_witness :
    (get_trailing_pe infoC3).1 = none ∧
    (get_trailing_pe infoC3w).1 = some 20 := by
  constructor
  · exact (claim_C3_trailing_pe infoC3 (by decide)).1 (-5) (by decide) (by norm_num)
  · have h := (claim_C3_trailing_pe infoC3w (by decide)).2 100 5 (by decide) (by norm_num)
      (by decide) (by norm_num)
    rw [h]
    decide

/-- An info mapping whose reported enterprise value 1000 passes the band
check against market cap 500, paired below with ebitda_ttm = 1 to force
an EV/EBITDA ratio of 1000, far outside [1, 100]. -/
def infoC4 : Info := fun k =>
  if k = "enterpriseValue" then .vnum 1000
  else if k = "marketCap" then .vnum 500
  else .vnone

/-- C4: the claim matches the shadowed first definition of
_get_ev_ebitda_with_ttm, but the class defines a second method of the
same name which replaces it, and that effective version performs no
range check: at EV 1000 and ebitda_ttm 1 the computed ratio 1000 lies
far outside [1, 100], yet the effective method returns it with no
quality issue (first two conjuncts), while the shadowed dead variant
would have flagged it (last conjunct). -/
theorem claim_C4_ev_ebitda_range_check_dead :
    get_ev_ebitda_with_ttm infoC4 (some 1) = .ok (some 1000, []) ∧
    (1000 : ℚ) > 100 ∧
    get_ev_ebitda_with_ttm_shadowed infoC4 (some 1) =
      .ok (some 1000, [unusualRatioIssue 1000]) := by
  refine ⟨by rfl, by norm_num, by rfl⟩

end Finansle
